import Mathlib

/-!
Verification development for the room-based party trivia game
(server core: `MemStorage` in `server/storage.ts` and the socket handlers in
`server/routes.ts`). JavaScript objects used as string-keyed maps are embedded
as association lists in insertion order (writing an existing key updates it in
place, a new key is appended, `Object.keys`/`Object.entries` enumerate in that
order). Room codes are the numbers `1000..9999` produced by
`Math.floor(1000 + Math.random() * 9000)`; the random stream is made explicit
as a parameter. JS string truthiness (`undefined` and `""` are falsy) is kept
where the source relies on it.
-/

namespace PartyQs

/-- A question/answer pair (`questionSchema` in `shared/schema.ts`). -/
structure Question where
  question : String
  correctAnswer : String
deriving DecidableEq, Repr

/-- The `state` field of a room (`roomSchema` in `shared/schema.ts`). -/
inductive GameState where
  | waiting
  | question
  | voting
  | revealing
  | complete
deriving DecidableEq, Repr

/-- Lookup in a JS object used as a map (`m[k]`, `undefined` becomes `none`). -/
def jsGet {κ α : Type} [BEq κ] (m : List (κ × α)) (k : κ) : Option α :=
  (m.find? (fun p => p.1 == k)).map (fun p => p.2)

/-- Key-presence test in a JS object (`k in m` / `Map.has`). -/
def jsHas {κ α : Type} [BEq κ] (m : List (κ × α)) (k : κ) : Bool :=
  m.any (fun p => p.1 == k)

/-- Property write `m[k] = v`: an existing key is updated in place, a new key
is appended at the end, matching JS object insertion-order semantics. -/
def jsSet {κ α : Type} [BEq κ] (m : List (κ × α)) (k : κ) (v : α) : List (κ × α) :=
  if jsHas m k then m.map (fun p => if p.1 == k then (k, v) else p)
  else m ++ [(k, v)]

/-- Property removal `delete m[k]`. -/
def jsDelete {κ α : Type} [BEq κ] (m : List (κ × α)) (k : κ) : List (κ × α) :=
  m.filter (fun p => p.1 != k)

/-- Embeds `Object.keys m`, in insertion order. -/
def jsKeys {κ α : Type} (m : List (κ × α)) : List κ :=
  m.map (fun p => p.1)

/-- Embeds `Object.values m`, in insertion order. -/
def jsValues {κ α : Type} (m : List (κ × α)) : List α :=
  m.map (fun p => p.2)

/-- JS `String.prototype.trim`: strip whitespace from both ends, embedded
directly over the character list so that it evaluates. -/
def jsTrim (s : String) : String :=
  ⟨((s.data.dropWhile Char.isWhitespace).reverse.dropWhile Char.isWhitespace).reverse⟩

/-- JS truthiness of a string-valued lookup: both `undefined` (the key is
absent) and the empty string are falsy. -/
def truthyStr : Option String → Bool
  | none => false
  | some s => s != ""

/-- Value of `x || d` for a string-valued JS lookup `x` (used for
`room.players[socketId] || 'Unknown'`). -/
def jsOrDefault (o : Option String) (d : String) : String :=
  match o with
  | none => d
  | some s => if s = "" then d else s

/-- A room, as stored by `MemStorage` (`roomSchema`): the `players`, `answers`
and `scores` objects are socket-id-keyed maps. -/
structure Room where
  code : Nat
  hostId : String
  questions : List Question
  currentQuestionIndex : Nat
  players : List (String × String)
  answers : List (String × String)
  scores : List (String × Int)
  state : GameState
deriving DecidableEq, Repr

/-- The private `rooms` map of `MemStorage`, keyed by room code. -/
def MemStorage : Type := List (Nat × Room)

instance : DecidableEq MemStorage := by
  unfold MemStorage
  infer_instance

/-- Embeds `MemStorage.getRoom`. -/
def getRoom (s : MemStorage) (code : Nat) : Option Room :=
  jsGet s code

/-- Embeds `this.rooms.set(code, room)`. -/
def setRoom (s : MemStorage) (code : Nat) (r : Room) : MemStorage :=
  jsSet s code r

/-- The `Partial<Room>` updates actually passed to `updateRoom` by the
handlers: an optional new `state` and an optional new `currentQuestionIndex`. -/
structure RoomUpdate where
  state : Option GameState
  currentQuestionIndex : Option Nat
deriving DecidableEq, Repr

/-- Embeds `Object.assign(room, updates)` for the update shapes above. -/
def applyUpdate (r : Room) (u : RoomUpdate) : Room :=
  { r with
    state := u.state.getD r.state
    currentQuestionIndex := u.currentQuestionIndex.getD r.currentQuestionIndex }

/-- Embeds `MemStorage.updateRoom`: merge the fields into the stored room, no-op if
the room is absent. -/
def updateRoom (s : MemStorage) (code : Nat) (u : RoomUpdate) : MemStorage :=
  match getRoom s code with
  | none => s
  | some r => setRoom s code (applyUpdate r u)

/-- Embeds `MemStorage.deleteRoom`. -/
def deleteRoom (s : MemStorage) (code : Nat) : MemStorage :=
  jsDelete s code

/-- One draw `Math.floor(1000 + Math.random() * 9000)` of
`generateRoomCode`, driven by one value of the random stream; the result is
always in `1000..9999`. -/
def sampleCode (seed : Nat) : Nat :=
  1000 + seed % 9000

/-- The rejection-sampling do/while loop of `MemStorage.generateRoomCode`,
run over an explicit finite stream of random draws: keep drawing while the
generated code is an active key of `rooms`. -/
def generateRoomCode (s : MemStorage) : List Nat → Option Nat
  | [] => none
  | seed :: rest =>
    let c := sampleCode seed
    if jsHas s c then generateRoomCode s rest else some c

/-- The filter `createRoom` applies to its question list: keep a pair only if
both prompt and answer are nonempty after trimming. -/
def validQuestion (q : Question) : Bool :=
  decide (0 < (jsTrim q.question).length) && decide (0 < (jsTrim q.correctAnswer).length)

/-- Embeds `MemStorage.createRoom`: generate a fresh code, filter blank question
pairs, store the room in phase `waiting` with index 0 and empty maps. -/
def createRoom (s : MemStorage) (seeds : List Nat) (hostId : String)
    (questions : List Question) : Option (Nat × MemStorage) :=
  match generateRoomCode s seeds with
  | none => none
  | some code =>
    let room : Room :=
      { code := code
        hostId := hostId
        questions := questions.filter validQuestion
        currentQuestionIndex := 0
        players := []
        answers := []
        scores := []
        state := .waiting }
    some (code, setRoom s code room)

/-- Embeds `MemStorage.addPlayerToRoom`: store the trimmed name under the socket id. -/
def addPlayerToRoom (s : MemStorage) (code : Nat) (sid : String) (name : String) :
    MemStorage :=
  match getRoom s code with
  | none => s
  | some r => setRoom s code { r with players := jsSet r.players sid (jsTrim name) }

/-- Embeds `MemStorage.removePlayerFromRoom`: delete the socket id from both
`players` and `answers`. -/
def removePlayerFromRoom (s : MemStorage) (code : Nat) (sid : String) : MemStorage :=
  match getRoom s code with
  | none => s
  | some r =>
    setRoom s code
      { r with players := jsDelete r.players sid, answers := jsDelete r.answers sid }

/-- Embeds `MemStorage.submitAnswer`: store the trimmed answer, but only when
`room.players[socketId]` is truthy. -/
def submitAnswer (s : MemStorage) (code : Nat) (sid : String) (answer : String) :
    MemStorage :=
  match getRoom s code with
  | none => s
  | some r =>
    if truthyStr (jsGet r.players sid) then
      setRoom s code { r with answers := jsSet r.answers sid (jsTrim answer) }
    else s

/-- Embeds `MemStorage.clearAnswers`: reset the `answers` object. -/
def clearAnswers (s : MemStorage) (code : Nat) : MemStorage :=
  match getRoom s code with
  | none => s
  | some r => setRoom s code { r with answers := [] }

/-- Embeds `MemStorage.clearVotes`, which clears the same `answers` object. -/
def clearVotes (s : MemStorage) (code : Nat) : MemStorage :=
  clearAnswers s code

/-- One element of the list returned by `getAllAnswers`. -/
structure AnswerEntry where
  name : String
  answer : String
deriving DecidableEq, Repr

/-- Embeds `MemStorage.getAllAnswers`: entries of `answers` with the submitter name
resolved through `players` (falling back to the string Unknown). -/
def getAllAnswers (s : MemStorage) (code : Nat) : List AnswerEntry :=
  match getRoom s code with
  | none => []
  | some r =>
    r.answers.map (fun p =>
      { name := jsOrDefault (jsGet r.players p.1) "Unknown", answer := p.2 })

/-- Embeds `MemStorage.getAnswerCount`. -/
def getAnswerCount (s : MemStorage) (code : Nat) : Nat :=
  match getRoom s code with
  | none => 0
  | some r => r.answers.length

/-- Embeds `MemStorage.getPlayerCount`. -/
def getPlayerCount (s : MemStorage) (code : Nat) : Nat :=
  match getRoom s code with
  | none => 0
  | some r => r.players.length

/-- Embeds `MemStorage.updatePlayerScore`: only when `room.players[socketId]` is
truthy; a missing (or zero, which is falsy) entry is initialised to 0 before
adding the points. -/
def updatePlayerScore (s : MemStorage) (code : Nat) (sid : String) (points : Int) :
    MemStorage :=
  match getRoom s code with
  | none => s
  | some r =>
    if truthyStr (jsGet r.players sid) then
      setRoom s code
        { r with scores := jsSet r.scores sid ((jsGet r.scores sid).getD 0 + points) }
    else s

/-- One leaderboard entry. -/
structure LBEntry where
  name : String
  score : Int
deriving DecidableEq, Repr

/-- The comparator `(a, b) => b.score - a.score` used by `getLeaderboard`:
`a` stays before `b` exactly when `b.score ≤ a.score` (descending, and the
engine's sort is stable). The embedding sorts with the stable
`List.insertionSort`, which produces the same list as any stable sort under
this total preorder. -/
def lbOrder (a b : LBEntry) : Prop :=
  b.score ≤ a.score

instance : DecidableRel lbOrder := fun a b => Int.decLe b.score a.score

instance : IsTotal LBEntry lbOrder :=
  ⟨fun a b => le_total b.score a.score⟩

instance : IsTrans LBEntry lbOrder :=
  ⟨fun _ _ _ h1 h2 => le_trans h2 h1⟩

/-- The per-entry mapping of `getLeaderboard`. For `Int`-valued scores the
defensive `score || 0` of the source is the identity (only 0 is falsy). -/
def lbEntryOf (r : Room) (p : String × Int) : LBEntry :=
  { name := jsOrDefault (jsGet r.players p.1) "Unknown", score := p.2 }

/-- Embeds `MemStorage.getLeaderboard`: map the `scores` entries to named entries,
sort descending by score, keep the top 3. -/
def getLeaderboard (s : MemStorage) (code : Nat) : List LBEntry :=
  match getRoom s code with
  | none => []
  | some r => (List.insertionSort lbOrder (r.scores.map (lbEntryOf r))).take 3

/-- One option of the voting list broadcast in `game:voting`. -/
structure VotingOption where
  answer : String
  isCorrect : Bool
deriving DecidableEq, Repr

/-- The voting option list as assembled by `show_voting`, the auto-advance
path of `answer:submit`, and the late-join path: every submitted answer
flagged `false`, followed by the correct answer flagged `true` (before
shuffling). -/
def buildVotingOptions (answers : List AnswerEntry) (correct : String) :
    List VotingOption :=
  answers.map (fun a => { answer := a.answer, isCorrect := false }) ++
    [{ answer := correct, isCorrect := true }]

/-- The in-place swap `[l[i], l[j]] = [l[j], l[i]]`; out-of-range indices
leave the list unchanged (unreachable in the source loop). -/
def listSwap {α : Type} (l : List α) (i j : Nat) : List α :=
  match l[i]?, l[j]? with
  | some a, some b => (l.set i b).set j a
  | _, _ => l

/-- The descending Fisher-Yates loop
`for (i = len-1; i > 0; i--) { j = floor(random()*(i+1)); swap i j }`,
with the draw for index `i` modelled as `rand i % (i + 1)` (the exact range
`0..i` of `Math.floor(Math.random() * (i + 1))`). -/
def fisherYatesGo {α : Type} (rand : Nat → Nat) : Nat → List α → List α
  | 0, l => l
  | i + 1, l => fisherYatesGo rand i (listSwap l (i + 1) (rand (i + 1) % (i + 2)))

/-- The whole shuffle of a voting option list. -/
def shuffle {α : Type} (rand : Nat → Nat) (l : List α) : List α :=
  fisherYatesGo rand (l.length - 1) l

/-- Outbound socket events emitted by the handlers (the server-to-client
events the claims mention); `errorMsg` carries the originating socket id
since errors go to that connection only. -/
inductive OutEvent where
  | errorMsg (target : String) (message : String)
  | roomCreated (target : String) (code : Nat)
  | roomPlayers (code : Nat) (players : List String)
  | gameQuestion (code : Nat) (question : String) (questionIndex : Nat)
      (totalQuestions : Nat)
  | gameVoting (code : Nat) (answers : List VotingOption)
  | gameResults (code : Nat) (correctAnswer : String) (leaderboard : List LBEntry)
  | gameComplete (code : Nat)
deriving DecidableEq, Repr

/-- The `action` field of `hostActionSchema`. -/
inductive HostAction where
  | start
  | show_voting
  | reveal
  | next
deriving DecidableEq, Repr

/-- The length bounds `z.string().min(1).max(500)` of `submitAnswerSchema`
on the `answer` field (the only content validation the core performs). -/
def submitAnswerSchemaOK (answer : String) : Bool :=
  decide (1 ≤ answer.length) && decide (answer.length ≤ 500)

/-- The `answer:submit` handler. A payload failing the schema makes
`parse` throw into the catch block. Otherwise: reject unless the room exists
and is in phase `question`; store the trimmed answer (a no-op for non-roster
senders); broadcast the roster; and when the answer count equals a positive
player count, build and shuffle the voting options, move the room to
`voting`, clear the answers and broadcast `game:voting`. When
`questions[currentQuestionIndex]` is `undefined` the later field access
throws after the answer was already stored, so only the error event is
emitted but the stored answer persists. -/
def handleAnswerSubmit (rand : Nat → Nat) (s : MemStorage) (sid : String)
    (code : Nat) (answer : String) : MemStorage × List OutEvent :=
  if !submitAnswerSchemaOK answer then
    (s, [.errorMsg sid "Failed to submit answer"])
  else
    match getRoom s code with
    | none => (s, [.errorMsg sid "Cannot submit answer right now"])
    | some room =>
      if room.state ≠ .question then
        (s, [.errorMsg sid "Cannot submit answer right now"])
      else
        let s1 := submitAnswer s code sid answer
        let answerCount := getAnswerCount s1 code
        let playerCount := getPlayerCount s1 code
        let ev0 : List OutEvent := [.roomPlayers code (jsValues room.players)]
        if answerCount = playerCount ∧ 0 < playerCount then
          match room.questions[room.currentQuestionIndex]? with
          | none => (s1, ev0 ++ [.errorMsg sid "Failed to submit answer"])
          | some q =>
            let options :=
              shuffle rand (buildVotingOptions (getAllAnswers s1 code) q.correctAnswer)
            let s2 := updateRoom s1 code { state := some .voting, currentQuestionIndex := none }
            let s3 := clearAnswers s2 code
            (s3, ev0 ++ [.gameVoting code options])
        else (s1, ev0)

/-- The `answer:vote` handler: reject unless the room exists and is in phase
`voting`; compare the selected answer to the correct answer by exact string
equality; on a match add 10 through `updatePlayerScore` (which silently
ignores non-roster voters); emit nothing on a counted or discarded vote. -/
def handleAnswerVote (s : MemStorage) (sid : String) (code : Nat)
    (selectedAnswer : String) : MemStorage × List OutEvent :=
  match getRoom s code with
  | none => (s, [.errorMsg sid "Cannot vote right now"])
  | some room =>
    if room.state ≠ .voting then
      (s, [.errorMsg sid "Cannot vote right now"])
    else
      match room.questions[room.currentQuestionIndex]? with
      | none => (s, [.errorMsg sid "Failed to submit vote"])
      | some q =>
        if selectedAnswer = q.correctAnswer then
          (updatePlayerScore s code sid 10, [])
        else (s, [])

/-- The `host:action` handler. Only the room's host may act; apart from the
`start` guard (`currentQuestionIndex >= questions.length` errors out) no
branch checks the room's current phase. Field accesses on an `undefined`
current question throw into the catch block at the point the source performs
them, which for `reveal` is after the phase was already mutated. -/
def handleHostAction (rand : Nat → Nat) (s : MemStorage) (sid : String)
    (code : Nat) (action : HostAction) : MemStorage × List OutEvent :=
  match getRoom s code with
  | none => (s, [.errorMsg sid "Not authorized to control this room"])
  | some room =>
    if room.hostId ≠ sid then
      (s, [.errorMsg sid "Not authorized to control this room"])
    else
      match action with
      | .start =>
        if room.questions.length ≤ room.currentQuestionIndex then
          (s, [.errorMsg sid "No more questions"])
        else
          let s1 := clearAnswers s code
          let s2 := updateRoom s1 code { state := some .question, currentQuestionIndex := none }
          match room.questions[room.currentQuestionIndex]? with
          | none => (s2, [.errorMsg sid "Failed to perform action"])
          | some q =>
            (s2, [.gameQuestion code q.question (room.currentQuestionIndex + 1)
              room.questions.length])
      | .show_voting =>
        match room.questions[room.currentQuestionIndex]? with
        | none => (s, [.errorMsg sid "Failed to perform action"])
        | some q =>
          let options :=
            shuffle rand (buildVotingOptions (getAllAnswers s code) q.correctAnswer)
          let s1 := updateRoom s code { state := some .voting, currentQuestionIndex := none }
          let s2 := clearAnswers s1 code
          (s2, [.gameVoting code options])
      | .reveal =>
        let leaderboard := getLeaderboard s code
        let s1 := updateRoom s code { state := some .revealing, currentQuestionIndex := none }
        match room.questions[room.currentQuestionIndex]? with
        | none => (s1, [.errorMsg sid "Failed to perform action"])
        | some q => (s1, [.gameResults code q.correctAnswer leaderboard])
      | .next =>
        let newIndex := room.currentQuestionIndex + 1
        if room.questions.length ≤ newIndex then
          let s1 := updateRoom s code { state := some .complete, currentQuestionIndex := none }
          (s1, [.gameComplete code])
        else
          let s1 := clearAnswers s code
          let s2 := updateRoom s1 code
            { state := some .question, currentQuestionIndex := some newIndex }
          match room.questions[newIndex]? with
          | none => (s2, [.errorMsg sid "Failed to perform action"])
          | some q =>
            (s2, [.gameQuestion code q.question (newIndex + 1) room.questions.length])

/-- Sequential processing of a list of `answer:submit` calls (the event loop
handles one intent to completion before the next). -/
def processSubmits (rand : Nat → Nat) (code : Nat) :
    MemStorage → List (String × String) → MemStorage
  | s, [] => s
  | s, (sid, ans) :: rest =>
    processSubmits rand code (handleAnswerSubmit rand s sid code ans).1 rest

/-! Basic lemmas about the JS-object map embedding. -/

section MapLemmas

variable {κ α : Type} [BEq κ] [LawfulBEq κ]

theorem jsHas_iff_mem_keys (m : List (κ × α)) (k : κ) :
    jsHas m k = true ↔ k ∈ jsKeys m := by
  simp [jsHas, jsKeys, List.any_eq_true, List.mem_map]

theorem jsGet_eq_none_of_not_has (m : List (κ × α)) (k : κ)
    (h : jsHas m k = false) : jsGet m k = none := by
  unfold jsGet
  rw [List.find?_eq_none.mpr]
  · rfl
  · intro p hp
    simp only [jsHas, List.any_eq_true, not_exists] at h
    intro hbeq
    exact absurd hbeq (by simpa using fun heq => (List.any_eq_false.mp h p hp) (by simpa using heq))

theorem jsGet_mem (m : List (κ × α)) (k : κ) (v : α) (h : jsGet m k = some v) :
    (k, v) ∈ m := by
  unfold jsGet at h
  obtain ⟨p, hfind, hv⟩ := Option.map_eq_some'.mp h
  have hmem := List.mem_of_find?_eq_some hfind
  have hkey := List.find?_some hfind
  simp only [beq_iff_eq] at hkey
  have : p = (k, v) := by
    cases p
    simp only at hv hkey
    simp [hkey, hv]
  rwa [this] at hmem

theorem jsGet_isSome_of_mem_keys (m : List (κ × α)) (k : κ)
    (h : k ∈ jsKeys m) : ∃ v, jsGet m k = some v ∧ (k, v) ∈ m := by
  simp only [jsKeys, List.mem_map] at h
  obtain ⟨p, hp, hk⟩ := h
  unfold jsGet
  have : (m.find? (fun p => p.1 == k)).isSome := by
    rw [List.find?_isSome]
    exact ⟨p, hp, by simp [hk]⟩
  obtain ⟨q, hq⟩ := Option.isSome_iff_exists.mp this
  refine ⟨q.2, by simp [hq], ?_⟩
  have hmem := List.mem_of_find?_eq_some hq
  have hkey := List.find?_some hq
  simp only [beq_iff_eq] at hkey
  have : q = (k, q.2) := by
    cases q; simp only at hkey; simp [hkey]
  rwa [this] at hmem

theorem jsGet_jsSet_self (m : List (κ × α)) (k : κ) (v : α) :
    jsGet (jsSet m k v) k = some v := by
  induction m with
  | nil => simp [jsGet, jsSet, jsHas]
  | cons p m ih =>
    by_cases hpk : p.1 == k
    · have hhas : jsHas (p :: m) k = true := by simp [jsHas, List.any_cons, hpk]
      simp only [jsSet, hhas, if_true, List.map_cons, jsGet, List.find?_cons, hpk, if_pos]
      simp
    · have hany : jsHas (p :: m) k = jsHas m k := by
        simp [jsHas, List.any_cons, hpk]
      by_cases hm : jsHas m k = true
      · have hset : jsSet m k v = m.map (fun q => if q.1 == k then (k, v) else q) := by
          simp [jsSet, hm]
        have : jsSet (p :: m) k v =
            p :: m.map (fun q => if q.1 == k then (k, v) else q) := by
          simp only [jsSet, hany, hm, if_true, List.map_cons]
          rw [if_neg (by simpa using hpk)]
        rw [this]
        have := ih
        rw [hset] at this
        simpa [jsGet, List.find?_cons, hpk] using this
      · have hm0 : jsHas m k = false := by simpa using hm
        have hset : jsSet m k v = m ++ [(k, v)] := by simp [jsSet, hm0]
        have : jsSet (p :: m) k v = p :: (m ++ [(k, v)]) := by
          simp [jsSet, hany, hm0]
        rw [this]
        have := ih
        rw [hset] at this
        simpa [jsGet, List.find?_cons, hpk] using this

theorem find?_map_setter (m : List (κ × α)) (k k2 : κ) (v : α) (h : k2 ≠ k) :
    (m.map (fun q => if q.1 == k then (k, v) else q)).find? (fun p => p.1 == k2) =
      m.find? (fun p => p.1 == k2) := by
  induction m with
  | nil => rfl
  | cons p m ih =>
    by_cases hpk : p.1 == k
    · have hk2 : (k == k2) = false := by
        simp only [beq_eq_false_iff_ne]
        exact fun hh => h hh.symm
      have hpk2 : (p.1 == k2) = false := by
        simp only [beq_iff_eq] at hpk
        simp only [beq_eq_false_iff_ne, hpk]
        exact fun hh => h hh.symm
      simp only [List.map_cons, if_pos hpk, List.find?_cons, hk2, hpk2]
      exact ih
    · simp only [List.map_cons, if_neg hpk, List.find?_cons]
      by_cases hpk2 : p.1 == k2
      · simp [hpk2]
      · simp only [Bool.not_eq_true] at hpk2
        simp only [hpk2]
        exact ih

theorem jsGet_jsSet_ne (m : List (κ × α)) (k k2 : κ) (v : α) (h : k2 ≠ k) :
    jsGet (jsSet m k v) k2 = jsGet m k2 := by
  unfold jsSet
  by_cases hm : jsHas m k = true
  · simp only [hm, if_true, jsGet, find?_map_setter m k k2 v h]
  · simp only [hm, if_false, Bool.false_eq_true, jsGet, List.find?_append]
    cases hfind : m.find? (fun p => p.1 == k2) with
    | some p => simp
    | none =>
      have hk2 : (k == k2) = false := by
        simp only [beq_eq_false_iff_ne]
        exact fun hh => h hh.symm
      simp [List.find?_cons, hk2]

theorem jsKeys_jsSet_of_has (m : List (κ × α)) (k : κ) (v : α)
    (h : jsHas m k = true) : jsKeys (jsSet m k v) = jsKeys m := by
  simp only [jsSet, h, if_true, jsKeys, List.map_map]
  apply List.map_congr_left
  intro p _
  by_cases hpk : p.1 == k
  · simp only [Function.comp_apply, if_pos hpk]
    simp only [beq_iff_eq] at hpk
    simp [hpk]
  · simp [Function.comp_apply, if_neg hpk]

theorem jsKeys_jsSet_of_not_has (m : List (κ × α)) (k : κ) (v : α)
    (h : jsHas m k = false) : jsKeys (jsSet m k v) = jsKeys m ++ [k] := by
  simp [jsSet, h, jsKeys]

theorem mem_jsKeys_jsSet (m : List (κ × α)) (k a : κ) (v : α) :
    a ∈ jsKeys (jsSet m k v) ↔ a ∈ jsKeys m ∨ a = k := by
  by_cases hm : jsHas m k = true
  · rw [jsKeys_jsSet_of_has m k v hm]
    constructor
    · exact fun hh => Or.inl hh
    · rintro (hh | rfl)
      · exact hh
      · exact (jsHas_iff_mem_keys m a).mp hm
  · rw [jsKeys_jsSet_of_not_has m k v (by simpa using hm)]
    simp

theorem nodup_jsKeys_jsSet (m : List (κ × α)) (k : κ) (v : α)
    (h : (jsKeys m).Nodup) : (jsKeys (jsSet m k v)).Nodup := by
  by_cases hm : jsHas m k = true
  · rwa [jsKeys_jsSet_of_has m k v hm]
  · rw [jsKeys_jsSet_of_not_has m k v (by simpa using hm)]
    have hk : k ∉ jsKeys m := by
      intro hmem
      exact hm ((jsHas_iff_mem_keys m k).mpr hmem)
    simp [List.nodup_append, h, hk]

theorem length_jsSet (m : List (κ × α)) (k : κ) (v : α) :
    (jsSet m k v).length = if jsHas m k then m.length else m.length + 1 := by
  by_cases hm : jsHas m k = true
  · simp [jsSet, hm]
  · simp [jsSet, (by simpa using hm : jsHas m k = false)]

end MapLemmas

theorem getRoom_setRoom_self (s : MemStorage) (code : Nat) (r : Room) :
    getRoom (setRoom s code r) code = some r :=
  jsGet_jsSet_self s code r

theorem getRoom_setRoom_ne (s : MemStorage) (code c2 : Nat) (r : Room)
    (h : c2 ≠ code) : getRoom (setRoom s code r) c2 = getRoom s c2 :=
  jsGet_jsSet_ne s code c2 r h

theorem getRoom_updateRoom_self (s : MemStorage) (code : Nat) (r : Room)
    (u : RoomUpdate) (h : getRoom s code = some r) :
    getRoom (updateRoom s code u) code = some (applyUpdate r u) := by
  unfold updateRoom
  rw [h]
  exact getRoom_setRoom_self s code (applyUpdate r u)

theorem getRoom_clearAnswers_self (s : MemStorage) (code : Nat) (r : Room)
    (h : getRoom s code = some r) :
    getRoom (clearAnswers s code) code = some { r with answers := [] } := by
  unfold clearAnswers
  rw [h]
  exact getRoom_setRoom_self s code { r with answers := [] }

/-- C9: for every room, `getLeaderboard` returns at most 3 entries, sorted by
descending cumulative score, and every entry is drawn from the room's
`scores` map resolved through the display names. -/
theorem C9_leaderboard (s : MemStorage) (code : Nat) (r : Room)
    (h : getRoom s code = some r) :
    (getLeaderboard s code).length ≤ 3 ∧
    (getLeaderboard s code).Pairwise (fun a b => b.score ≤ a.score) ∧
    getLeaderboard s code ⊆ r.scores.map (lbEntryOf r) := by
  unfold getLeaderboard
  rw [h]
  refine ⟨?_, ?_, ?_⟩
  · rw [List.length_take]
    exact min_le_left _ _
  · have hs := List.sorted_insertionSort lbOrder (r.scores.map (lbEntryOf r))
    exact (List.Pairwise.sublist (List.take_sublist 3 _) hs).imp (fun hab => hab)
  · intro x hx
    have hx2 : x ∈ List.insertionSort lbOrder (r.scores.map (lbEntryOf r)) :=
      (List.take_sublist 3 _).subset hx
    exact (List.perm_insertionSort lbOrder _).subset hx2

/-- A concrete room exercising C9. -/
def roomW9 : Room :=
  { code := 77, hostId := "host", questions := [], currentQuestionIndex := 0,
    players := [("a", "ann"), ("b", "ben")], answers := [],
    scores := [("a", 10), ("b", 30), ("c", 20), ("d", 5)], state := .waiting }

/-- Witness for C9 at a concrete four-entry scores map. -/
theorem C9_leaderboard_witness :
    getRoom [(77, roomW9)] 77 = some roomW9 ∧
    ((getLeaderboard [(77, roomW9)] 77).length ≤ 3 ∧
     (getLeaderboard [(77, roomW9)] 77).Pairwise (fun a b => b.score ≤ a.score) ∧
     getLeaderboard [(77, roomW9)] 77 ⊆ roomW9.scores.map (lbEntryOf roomW9)) :=
  ⟨rfl, C9_leaderboard [(77, roomW9)] 77 roomW9 rfl⟩

/-! C7: room creation. -/

theorem generateRoomCode_spec (s : MemStorage) (seeds : List Nat) (c : Nat)
    (h : generateRoomCode s seeds = some c) :
    1000 ≤ c ∧ c < 10000 ∧ jsHas s c = false := by
  induction seeds with
  | nil => simp [generateRoomCode] at h
  | cons seed rest ih =>
    simp only [generateRoomCode] at h
    by_cases hh : jsHas s (sampleCode seed) = true
    · rw [if_pos hh] at h
      exact ih h
    · rw [if_neg hh] at h
      injection h with h
      subst h
      refine ⟨Nat.le_add_right _ _, ?_, by simpa using hh⟩
      have : seed % 9000 < 9000 := Nat.mod_lt _ (by norm_num)
      unfold sampleCode
      omega

theorem digits_len_four (c : Nat) (h1 : 1000 ≤ c) (h2 : c < 10000) :
    (Nat.digits 10 c).length = 4 := by
  rw [Nat.digits_len 10 c (by norm_num) (by omega)]
  have hlog : Nat.log 10 c = 3 :=
    Nat.log_eq_of_pow_le_of_lt_pow (by norm_num; omega) (by norm_num; omega)
  omega

/-- C7: when `createRoom` succeeds with at least one valid question pair, the
returned code prints as exactly 4 decimal digits, was not an active code
before, and the stored room has the blank pairs filtered out, phase
`waiting`, index 0 and empty players/answers/scores. -/
theorem C7_createRoom (s : MemStorage) (seeds : List Nat) (hostId : String)
    (qs : List Question) (c : Nat) (s2 : MemStorage)
    (hvalid : ∃ q ∈ qs, validQuestion q = true)
    (h : createRoom s seeds hostId qs = some (c, s2)) :
    (Nat.digits 10 c).length = 4 ∧
    getRoom s c = none ∧
    qs.filter validQuestion ≠ [] ∧
    getRoom s2 c = some
      { code := c, hostId := hostId, questions := qs.filter validQuestion,
        currentQuestionIndex := 0, players := [], answers := [], scores := [],
        state := .waiting } := by
  unfold createRoom at h
  cases hgen : generateRoomCode s seeds with
  | none => rw [hgen] at h; simp at h
  | some code =>
    rw [hgen] at h
    simp only [Option.some.injEq, Prod.mk.injEq] at h
    obtain ⟨rfl, rfl⟩ := h
    obtain ⟨hb1, hb2, hfresh⟩ := generateRoomCode_spec s seeds code hgen
    refine ⟨digits_len_four code hb1 hb2, jsGet_eq_none_of_not_has s code hfresh, ?_,
      getRoom_setRoom_self s code _⟩
    obtain ⟨q, hq, hvq⟩ := hvalid
    exact List.ne_nil_of_mem (List.mem_filter.mpr ⟨hq, hvq⟩)

/-- A concrete question pair for witnesses. -/
def qW : Question := { question := "capital of france?", correctAnswer := "paris" }

/-- The room stored by `createRoom` in the C7 witness run. -/
def roomW7 : Room :=
  { code := 1000, hostId := "host", questions := [qW], currentQuestionIndex := 0,
    players := [], answers := [], scores := [], state := .waiting }

/-- Witness for C7: creating a room in an empty store with random draw 0. -/
theorem C7_createRoom_witness :
    (∃ q ∈ [qW], validQuestion q = true) ∧
    ((Nat.digits 10 1000).length = 4 ∧
     getRoom ([] : MemStorage) 1000 = none ∧
     [qW].filter validQuestion ≠ [] ∧
     getRoom [(1000, roomW7)] 1000 = some
       { code := 1000, hostId := "host", questions := [qW].filter validQuestion,
         currentQuestionIndex := 0, players := [], answers := [], scores := [],
         state := .waiting }) :=
  ⟨⟨qW, by simp, by decide⟩,
    C7_createRoom [] [0] "host" [qW] 1000 [(1000, roomW7)]
      ⟨qW, by simp, by decide⟩ rfl⟩

theorem jsGet_eq_none_of_not_mem_keys {κ α : Type} [BEq κ] [LawfulBEq κ]
    (m : List (κ × α)) (k : κ) (h : k ∉ jsKeys m) : jsGet m k = none := by
  cases hg : jsGet m k with
  | none => rfl
  | some v =>
    exfalso
    apply h
    have := jsGet_mem m k v hg
    exact List.mem_map.mpr ⟨(k, v), this, rfl⟩

/-- C10: a vote cast in a voting-phase room by a connection that is not a key
of the room's `players` map leaves the storage (in particular every score)
unchanged and emits no event at all — no error either — even when the
selected answer equals the correct answer. -/
theorem C10_nonplayer_vote_discarded (s : MemStorage) (sid : String) (code : Nat)
    (room : Room) (q : Question) (sel : String)
    (hr : getRoom s code = some room)
    (hst : room.state = .voting)
    (hq : room.questions[room.currentQuestionIndex]? = some q)
    (hp : sid ∉ jsKeys room.players) :
    handleAnswerVote s sid code sel = (s, []) := by
  unfold handleAnswerVote
  rw [hr]
  dsimp only
  have hnot : ¬ room.state ≠ GameState.voting := by simp [hst]
  rw [if_neg hnot, hq]
  dsimp only
  by_cases hsel : sel = q.correctAnswer
  · rw [if_pos hsel]
    unfold updatePlayerScore
    rw [hr]
    dsimp only
    rw [jsGet_eq_none_of_not_mem_keys room.players sid hp]
    rfl
  · rw [if_neg hsel]

/-- A concrete voting-phase room used by the C10 witness: one roster player,
the host connection is not in `players`. -/
def roomV10 : Room :=
  { code := 1234, hostId := "host", questions := [qW], currentQuestionIndex := 0,
    players := [("p1", "ann")], answers := [], scores := [], state := .voting }

/-- Witness for C10: the host votes the correct answer and nothing happens. -/
theorem C10_nonplayer_vote_discarded_witness :
    getRoom [(1234, roomV10)] 1234 = some roomV10 ∧
    roomV10.state = .voting ∧
    roomV10.questions[roomV10.currentQuestionIndex]? = some qW ∧
    "host" ∉ jsKeys roomV10.players ∧
    "paris" = qW.correctAnswer ∧
    handleAnswerVote [(1234, roomV10)] "host" 1234 "paris" = ([(1234, roomV10)], []) :=
  ⟨rfl, rfl, rfl, by decide, rfl,
    C10_nonplayer_vote_discarded [(1234, roomV10)] "host" 1234 roomV10 qW "paris"
      rfl rfl rfl (by decide)⟩

/-! C3: the `reveal` host action has no phase guard in the code. -/

/-- A concrete question-phase room for the C3 refutation. -/
def roomC3 : Room :=
  { code := 1234, hostId := "host", questions := [qW], currentQuestionIndex := 0,
    players := [("p1", "ann")], answers := [], scores := [], state := .question }

/-- Counterexample to C3 as stated: with the room still in phase `question`,
a host `reveal` emits `game:results` (no error event) and mutates the phase
to `revealing`. -/
theorem C3_reveal_in_question_cex :
    roomC3.state = .question ∧
    (handleHostAction (fun _ => 0) [(1234, roomC3)] "host" 1234 .reveal).2 =
      [.gameResults 1234 "paris" []] ∧
    (getRoom (handleHostAction (fun _ => 0) [(1234, roomC3)] "host" 1234 .reveal).1
        1234).map (fun r => r.state) = some .revealing := by
  decide

/-- C3 amended: a host `reveal` on an existing room succeeds in every phase
(the handler checks only room existence and host identity): it broadcasts the
correct answer with the leaderboard and sets the phase to `revealing`,
leaving every other room field unchanged. -/
theorem C3_reveal_any_phase (rand : Nat → Nat) (s : MemStorage) (sid : String)
    (code : Nat) (room : Room) (q : Question)
    (hr : getRoom s code = some room)
    (hhost : room.hostId = sid)
    (hq : room.questions[room.currentQuestionIndex]? = some q) :
    (handleHostAction rand s sid code .reveal).2 =
      [.gameResults code q.correctAnswer (getLeaderboard s code)] ∧
    getRoom (handleHostAction rand s sid code .reveal).1 code =
      some { room with state := .revealing } := by
  unfold handleHostAction
  rw [hr]
  dsimp only
  have hnot : ¬ room.hostId ≠ sid := by simp [hhost]
  rw [if_neg hnot, hq]
  dsimp only
  refine ⟨rfl, ?_⟩
  have := getRoom_updateRoom_self s code room
    { state := some .revealing, currentQuestionIndex := none } hr
  simpa [applyUpdate] using this

/-- Witness for the amended C3 at the concrete question-phase room. -/
theorem C3_reveal_any_phase_witness :
    getRoom [(1234, roomC3)] 1234 = some roomC3 ∧
    roomC3.hostId = "host" ∧
    roomC3.questions[roomC3.currentQuestionIndex]? = some qW ∧
    ((handleHostAction (fun _ => 0) [(1234, roomC3)] "host" 1234 .reveal).2 =
      [.gameResults 1234 qW.correctAnswer (getLeaderboard [(1234, roomC3)] 1234)] ∧
     getRoom (handleHostAction (fun _ => 0) [(1234, roomC3)] "host" 1234 .reveal).1 1234 =
      some { roomC3 with state := .revealing }) :=
  ⟨rfl, rfl, rfl,
    C3_reveal_any_phase (fun _ => 0) [(1234, roomC3)] "host" 1234 roomC3 qW rfl rfl rfl⟩

/-! C4: vote scoring. -/

/-- A concrete voting-phase room for the C4 refutation (scores empty,
`"paris"` is the correct answer, the host is not a roster player). -/
def roomC4 : Room :=
  { code := 1234, hostId := "host", questions := [qW], currentQuestionIndex := 0,
    players := [("p1", "ann")], answers := [], scores := [], state := .voting }

/-- Counterexample to C4 as stated: the host connection casts a vote that is
exactly the correct answer, yet its cumulative score is not incremented by 10
(the storage is untouched and the host has no scores entry at all). -/
theorem C4_host_vote_not_scored_cex :
    roomC4.state = .voting ∧
    "paris" = qW.correctAnswer ∧
    handleAnswerVote [(1234, roomC4)] "host" 1234 "paris" = ([(1234, roomC4)], []) ∧
    (getRoom (handleAnswerVote [(1234, roomC4)] "host" 1234 "paris").1 1234).map
      (fun r => jsGet r.scores "host") = some none := by
  decide

/-- C4 amended: in a voting-phase room, a vote equal to the correct answer
increments the voter's cumulative score by exactly 10 and touches no other
score — provided the voter is a (truthy) key of the `players` map; a vote
with any other value changes nothing, and a vote from a non-roster
connection changes nothing either. -/
theorem C4_vote_scoring (s : MemStorage) (sid : String) (code : Nat)
    (room : Room) (q : Question) (sel : String)
    (hr : getRoom s code = some room)
    (hst : room.state = .voting)
    (hq : room.questions[room.currentQuestionIndex]? = some q) :
    (truthyStr (jsGet room.players sid) = true → sel = q.correctAnswer →
      ∃ room2, getRoom (handleAnswerVote s sid code sel).1 code = some room2 ∧
        jsGet room2.scores sid = some ((jsGet room.scores sid).getD 0 + 10) ∧
        (∀ o, o ≠ sid → jsGet room2.scores o = jsGet room.scores o) ∧
        room2.players = room.players ∧ room2.answers = room.answers ∧
        room2.state = room.state ∧
        (handleAnswerVote s sid code sel).2 = []) ∧
    (sel ≠ q.correctAnswer → handleAnswerVote s sid code sel = (s, [])) ∧
    (truthyStr (jsGet room.players sid) = false →
      handleAnswerVote s sid code sel = (s, [])) := by
  unfold handleAnswerVote
  rw [hr]
  dsimp only
  have hnot : ¬ room.state ≠ GameState.voting := by simp [hst]
  rw [if_neg hnot, hq]
  dsimp only
  refine ⟨?_, ?_, ?_⟩
  · intro htruthy hsel
    rw [if_pos hsel]
    unfold updatePlayerScore
    rw [hr]
    dsimp only
    rw [if_pos htruthy]
    refine ⟨{ room with
        scores := jsSet room.scores sid ((jsGet room.scores sid).getD 0 + 10) },
      getRoom_setRoom_self s code _, ?_, ?_, rfl, rfl, rfl, rfl⟩
    · exact jsGet_jsSet_self room.scores sid _
    · intro o ho
      exact jsGet_jsSet_ne room.scores sid o _ ho
  · intro hsel
    rw [if_neg hsel]
  · intro htruthy
    by_cases hsel : sel = q.correctAnswer
    · rw [if_pos hsel]
      unfold updatePlayerScore
      rw [hr]
      dsimp only
      rw [htruthy]
      rfl
    · rw [if_neg hsel]

/-- Witness for the amended C4: the roster player votes the correct answer
and ends with exactly 10 points. -/
theorem C4_vote_scoring_witness :
    getRoom [(1234, roomC4)] 1234 = some roomC4 ∧
    roomC4.state = .voting ∧
    roomC4.questions[roomC4.currentQuestionIndex]? = some qW ∧
    truthyStr (jsGet roomC4.players "p1") = true ∧
    (∃ room2, getRoom (handleAnswerVote [(1234, roomC4)] "p1" 1234 "paris").1 1234 =
        some room2 ∧
      jsGet room2.scores "p1" = some ((jsGet roomC4.scores "p1").getD 0 + 10) ∧
      (∀ o, o ≠ "p1" → jsGet room2.scores o = jsGet roomC4.scores o) ∧
      room2.players = roomC4.players ∧ room2.answers = roomC4.answers ∧
      room2.state = roomC4.state ∧
      (handleAnswerVote [(1234, roomC4)] "p1" 1234 "paris").2 = []) :=
  ⟨rfl, rfl, rfl, by decide,
    (C4_vote_scoring [(1234, roomC4)] "p1" 1234 roomC4 qW "paris" rfl rfl rfl).1
      (by decide) rfl⟩

/-! C5: answer-content validation. -/

/-- A concrete two-player question-phase room for C5 (two players so that a
single submission does not trigger the auto-advance that clears answers). -/
def roomC5 : Room :=
  { code := 1234, hostId := "host", questions := [qW], currentQuestionIndex := 0,
    players := [("p1", "ann"), ("p2", "ben")], answers := [], scores := [],
    state := .question }

/-- Counterexample to C5 as stated: the answer `"7"` has trimmed length 1
(< 2), consists solely of digits, and is a single repeated character, yet the
core stores it into the shared answer pool. -/
theorem C5_weak_answer_stored_cex :
    (jsTrim "7").length < 2 ∧
    "7".data.all Char.isDigit = true ∧
    "7".data.dedup.length = 1 ∧
    (getRoom (handleAnswerSubmit (fun _ => 0) [(1234, roomC5)] "p1" 1234 "7").1
        1234).map (fun r => r.answers) = some [("p1", "7")] := by
  decide

/-- C5 amended: the only validation applied to a submitted answer is the
transport schema bound (raw length between 1 and 500); any such answer from
a truthy roster player while the room is in phase `question` is stored
trimmed into the shared answer pool — no minimum-trimmed-length, digits-only
or repeated-character check exists. -/
theorem C5_schema_only_validation (rand : Nat → Nat) (s : MemStorage)
    (sid : String) (code : Nat) (room : Room) (answer : String)
    (hschema : submitAnswerSchemaOK answer = true)
    (hr : getRoom s code = some room)
    (hst : room.state = .question)
    (hp : truthyStr (jsGet room.players sid) = true) :
    submitAnswer s code sid answer =
      setRoom s code { room with answers := jsSet room.answers sid (jsTrim answer) } ∧
    jsGet (jsSet room.answers sid (jsTrim answer)) sid = some (jsTrim answer) ∧
    (∃ rest, (handleAnswerSubmit rand s sid code answer).2 =
      .roomPlayers code (jsValues room.players) :: rest) := by
  have hsub : submitAnswer s code sid answer =
      setRoom s code { room with answers := jsSet room.answers sid (jsTrim answer) } := by
    unfold submitAnswer
    rw [hr]
    dsimp only
    rw [if_pos hp]
  refine ⟨hsub, jsGet_jsSet_self room.answers sid (jsTrim answer), ?_⟩
  unfold handleAnswerSubmit
  rw [hschema]
  dsimp only
  rw [hr]
  dsimp only
  have hnot : ¬ room.state ≠ GameState.question := by simp [hst]
  rw [if_neg hnot]
  by_cases htrig :
      getAnswerCount (submitAnswer s code sid answer) code =
        getPlayerCount (submitAnswer s code sid answer) code ∧
      0 < getPlayerCount (submitAnswer s code sid answer) code
  · rw [if_pos htrig]
    cases hqq : room.questions[room.currentQuestionIndex]? with
    | none => exact ⟨[.errorMsg sid "Failed to submit answer"], rfl⟩
    | some q =>
      exact ⟨[.gameVoting code (shuffle rand (buildVotingOptions
        (getAllAnswers (submitAnswer s code sid answer) code) q.correctAnswer))], rfl⟩
  · rw [if_neg htrig]
    exact ⟨[], rfl⟩

/-- Witness for the amended C5: the digits-only, length-1 answer `"7"` passes
the schema and is stored. -/
theorem C5_schema_only_validation_witness :
    submitAnswerSchemaOK "7" = true ∧
    getRoom [(1234, roomC5)] 1234 = some roomC5 ∧
    roomC5.state = .question ∧
    truthyStr (jsGet roomC5.players "p1") = true ∧
    (submitAnswer [(1234, roomC5)] 1234 "p1" "7" =
      setRoom [(1234, roomC5)] 1234
        { roomC5 with answers := jsSet roomC5.answers "p1" (jsTrim "7") } ∧
     jsGet (jsSet roomC5.answers "p1" (jsTrim "7")) "p1" = some (jsTrim "7") ∧
     (∃ rest, (handleAnswerSubmit (fun _ => 0) [(1234, roomC5)] "p1" 1234 "7").2 =
       .roomPlayers 1234 (jsValues roomC5.players) :: rest)) :=
  ⟨by decide, rfl, rfl, by decide,
    C5_schema_only_validation (fun _ => 0) [(1234, roomC5)] "p1" 1234 roomC5 "7"
      (by decide) rfl rfl (by decide)⟩

/-! C8: the `next` host action. -/

/-- A concrete question-phase room with two questions for the C8 refutation. -/
def roomC8 : Room :=
  { code := 1234, hostId := "host",
    questions := [qW, { question := "2+2?", correctAnswer := "4" }],
    currentQuestionIndex := 0, players := [("p1", "ann")], answers := [],
    scores := [], state := .question }

/-- Counterexample to C8 as stated: `next` issued while the phase is
`question` (not `revealing`) is not rejected — it advances the index and
broadcasts the next question. -/
theorem C8_next_in_question_cex :
    roomC8.state = .question ∧
    (handleHostAction (fun _ => 0) [(1234, roomC8)] "host" 1234 .next).2 =
      [.gameQuestion 1234 "2+2?" 2 2] ∧
    (getRoom (handleHostAction (fun _ => 0) [(1234, roomC8)] "host" 1234 .next).1
        1234).map (fun r => (r.state, r.currentQuestionIndex)) =
      some (.question, 1) := by
  decide

/-- C8 amended: `next` is accepted from the host in every phase (the handler
has no phase guard). When `currentQuestionIndex + 1 >= questions.length` it
sets the phase to `complete` and broadcasts the completion signal; otherwise
it clears the answers, increments the index, sets phase `question`, and
broadcasts the new current question (1-based index and total count) — the
very events `start` would then emit on the updated room. -/
theorem C8_next_no_phase_guard (rand : Nat → Nat) (s : MemStorage) (sid : String)
    (code : Nat) (room : Room)
    (hr : getRoom s code = some room)
    (hhost : room.hostId = sid) :
    (room.questions.length ≤ room.currentQuestionIndex + 1 →
      (handleHostAction rand s sid code .next).2 = [.gameComplete code] ∧
      getRoom (handleHostAction rand s sid code .next).1 code =
        some { room with state := .complete }) ∧
    (∀ q, room.questions[room.currentQuestionIndex + 1]? = some q →
      getRoom (handleHostAction rand s sid code .next).1 code =
        some
          { room with
            answers := []
            currentQuestionIndex := room.currentQuestionIndex + 1
            state := .question } ∧
      (handleHostAction rand s sid code .next).2 =
        [.gameQuestion code q.question (room.currentQuestionIndex + 2)
          room.questions.length] ∧
      (handleHostAction rand (handleHostAction rand s sid code .next).1 sid code
          .start).2 = (handleHostAction rand s sid code .next).2) := by
  have hnot : ¬ room.hostId ≠ sid := by simp [hhost]
  constructor
  · intro hlen
    unfold handleHostAction
    rw [hr]
    dsimp only
    rw [if_neg hnot]
    rw [if_pos hlen]
    refine ⟨rfl, ?_⟩
    have := getRoom_updateRoom_self s code room
      { state := some .complete, currentQuestionIndex := none } hr
    simpa [applyUpdate] using this
  · intro q hq2
    obtain ⟨hlt, _⟩ := List.getElem?_eq_some_iff.mp hq2
    have hnle : ¬ room.questions.length ≤ room.currentQuestionIndex + 1 :=
      not_le.mpr hlt
    have hclear := getRoom_clearAnswers_self s code room hr
    have hafter := getRoom_updateRoom_self (clearAnswers s code) code
      { room with answers := [] }
      { state := some .question, currentQuestionIndex := some (room.currentQuestionIndex + 1) }
      hclear
    have hroom2 : getRoom (updateRoom (clearAnswers s code) code
        { state := some .question,
          currentQuestionIndex := some (room.currentQuestionIndex + 1) }) code =
        some
          { room with
            answers := []
            currentQuestionIndex := room.currentQuestionIndex + 1
            state := .question } := by
      simpa [applyUpdate] using hafter
    have hres : handleHostAction rand s sid code .next =
        (updateRoom (clearAnswers s code) code
          { state := some .question,
            currentQuestionIndex := some (room.currentQuestionIndex + 1) },
         [.gameQuestion code q.question (room.currentQuestionIndex + 2)
           room.questions.length]) := by
      unfold handleHostAction
      rw [hr]
      dsimp only
      rw [if_neg hnot]
      rw [if_neg hnle, hq2]
    refine ⟨hres ▸ hroom2, hres ▸ rfl, ?_⟩
    rw [hres]
    unfold handleHostAction
    rw [hroom2]
    dsimp only
    rw [if_neg hnot]
    rw [if_neg (not_le.mpr hlt), hq2]

/-- Witness for the amended C8 at the two-question room (non-final branch). -/
theorem C8_next_no_phase_guard_witness :
    getRoom [(1234, roomC8)] 1234 = some roomC8 ∧
    roomC8.hostId = "host" ∧
    roomC8.questions[roomC8.currentQuestionIndex + 1]? =
      some { question := "2+2?", correctAnswer := "4" } ∧
    (getRoom (handleHostAction (fun _ => 0) [(1234, roomC8)] "host" 1234 .next).1
        1234 =
      some
        { roomC8 with
          answers := []
          currentQuestionIndex := roomC8.currentQuestionIndex + 1
          state := .question } ∧
     (handleHostAction (fun _ => 0) [(1234, roomC8)] "host" 1234 .next).2 =
      [.gameQuestion 1234 "2+2?" (roomC8.currentQuestionIndex + 2)
        roomC8.questions.length] ∧
     (handleHostAction (fun _ => 0)
        (handleHostAction (fun _ => 0) [(1234, roomC8)] "host" 1234 .next).1
        "host" 1234 .start).2 =
      (handleHostAction (fun _ => 0) [(1234, roomC8)] "host" 1234 .next).2) :=
  ⟨rfl, rfl, rfl,
    (C8_next_no_phase_guard (fun _ => 0) [(1234, roomC8)] "host" 1234 roomC8
      rfl rfl).2 { question := "2+2?", correctAnswer := "4" } rfl⟩

/-! C1: voting option assembly and the Fisher-Yates shuffle. -/

theorem cons_set_perm {α : Type} (t : List α) (m : Nat) (c d : α)
    (h : t[m]? = some c) : (c :: t.set m d).Perm (d :: t) := by
  induction t generalizing m with
  | nil => simp at h
  | cons x u ih =>
    cases m with
    | zero =>
      have hx : x = c := by simpa using h
      simp only [List.set_cons_zero]
      rw [← hx]
      exact List.Perm.swap d x u
    | succ m =>
      simp only [List.getElem?_cons_succ] at h
      simp only [List.set_cons_succ]
      refine List.Perm.trans (List.Perm.swap x c _) ?_
      refine List.Perm.trans ((ih m h).cons x) ?_
      exact List.Perm.swap d x u

theorem set_set_perm {α : Type} (l : List α) (i j : Nat) (a b : α)
    (hi : l[i]? = some a) (hj : l[j]? = some b) :
    ((l.set i b).set j a).Perm l := by
  induction l generalizing i j with
  | nil => simp at hi
  | cons x t ih =>
    cases i with
    | zero =>
      have hx : x = a := by simpa using hi
      cases j with
      | zero =>
        simp only [List.set_cons_zero]
        rw [← hx]
      | succ m =>
        simp only [List.getElem?_cons_succ] at hj
        simp only [List.set_cons_zero, List.set_cons_succ]
        rw [hx]
        exact cons_set_perm t m b a hj
    | succ n =>
      simp only [List.getElem?_cons_succ] at hi
      cases j with
      | zero =>
        have hx : x = b := by simpa using hj
        simp only [List.set_cons_succ, List.set_cons_zero]
        rw [hx]
        exact cons_set_perm t n a b hi
      | succ m =>
        simp only [List.getElem?_cons_succ] at hj
        simp only [List.set_cons_succ]
        exact (ih n m hi hj).cons x

theorem listSwap_perm {α : Type} (l : List α) (i j : Nat) :
    (listSwap l i j).Perm l := by
  unfold listSwap
  cases hi : l[i]? with
  | none => exact List.Perm.refl l
  | some a =>
    cases hj : l[j]? with
    | none => exact List.Perm.refl l
    | some b => exact set_set_perm l i j a b hi hj

theorem fisherYatesGo_perm {α : Type} (rand : Nat → Nat) :
    ∀ (n : Nat) (l : List α), (fisherYatesGo rand n l).Perm l
  | 0, l => List.Perm.refl l
  | n + 1, l =>
    (fisherYatesGo_perm rand n _).trans
      (listSwap_perm l (n + 1) (rand (n + 1) % (n + 2)))

/-- The Fisher-Yates loop is a permutation: same multiset before and after. -/
theorem shuffle_perm {α : Type} (rand : Nat → Nat) (l : List α) :
    (shuffle rand l).Perm l :=
  fisherYatesGo_perm rand (l.length - 1) l

theorem buildVotingOptions_length (answers : List AnswerEntry) (c : String) :
    (buildVotingOptions answers c).length = answers.length + 1 := by
  simp [buildVotingOptions]

theorem buildVotingOptions_one_correct (answers : List AnswerEntry) (c : String) :
    ((buildVotingOptions answers c).filter (fun o => o.isCorrect)).length = 1 := by
  unfold buildVotingOptions
  rw [List.filter_append]
  have hmap : (answers.map
      (fun a => ({ answer := a.answer, isCorrect := false } : VotingOption))).filter
      (fun o => o.isCorrect) = [] := by
    induction answers with
    | nil => rfl
    | cons a t ih => simpa [List.filter_cons] using ih
  rw [hmap]
  rfl

theorem getAllAnswers_length (s : MemStorage) (code : Nat) (room : Room)
    (h : getRoom s code = some room) :
    (getAllAnswers s code).length = room.answers.length := by
  unfold getAllAnswers
  rw [h]
  exact List.length_map _ _

/-- A concrete question-phase room in which two distinct players submitted
the same answer text. -/
def roomC1 : Room :=
  { code := 1234, hostId := "host", questions := [qW], currentQuestionIndex := 0,
    players := [("p1", "ann"), ("p2", "ben")],
    answers := [("p1", "lyon"), ("p2", "lyon")], scores := [], state := .question }

/-- Counterexample to C1 as stated: with two players both submitting
`"lyon"`, the distinct submitted answers are just `["lyon"]`, yet the
broadcast option set has 3 entries, not distinct + 1 = 2 — duplicate texts
are kept, one entry per submitting player. -/
theorem C1_duplicate_answers_cex :
    roomC1.state = .question ∧
    (roomC1.answers.map (fun p => p.2)).dedup = ["lyon"] ∧
    (handleHostAction (fun _ => 0) [(1234, roomC1)] "host" 1234 .show_voting).2 =
      [.gameVoting 1234
        [{ answer := "lyon", isCorrect := false },
         { answer := "paris", isCorrect := true },
         { answer := "lyon", isCorrect := false }]] ∧
    ([{ answer := "lyon", isCorrect := false },
      { answer := "paris", isCorrect := true },
      { answer := "lyon", isCorrect := false }] : List VotingOption).length ≠
      (roomC1.answers.map (fun p => p.2)).dedup.length + 1 := by
  decide

/-- C1 amended: the voting option set built by `show_voting` (and by the
auto-advance path) has size equal to the number of stored answer entries —
one per distinct submitting player, duplicate texts kept — plus 1 for the
correct answer; exactly one entry is flagged correct; and the shuffle is a
permutation (same multiset before and after). -/
theorem C1_voting_options (rand : Nat → Nat) (s : MemStorage) (sid : String)
    (code : Nat) (room : Room) (q : Question)
    (hr : getRoom s code = some room)
    (hst : room.state = .question)
    (hhost : room.hostId = sid)
    (hq : room.questions[room.currentQuestionIndex]? = some q) :
    ((handleHostAction rand s sid code .show_voting).2 =
        [.gameVoting code (shuffle rand
          (buildVotingOptions (getAllAnswers s code) q.correctAnswer))] ∧
      (buildVotingOptions (getAllAnswers s code) q.correctAnswer).length =
        room.answers.length + 1 ∧
      ((buildVotingOptions (getAllAnswers s code) q.correctAnswer).filter
        (fun o => o.isCorrect)).length = 1 ∧
      (shuffle rand (buildVotingOptions (getAllAnswers s code)
        q.correctAnswer)).Perm
        (buildVotingOptions (getAllAnswers s code) q.correctAnswer)) ∧
    (∀ sid2 ans room1,
      submitAnswerSchemaOK ans = true →
      getRoom (submitAnswer s code sid2 ans) code = some room1 →
      room1.answers.length = room1.players.length →
      0 < room1.players.length →
      (handleAnswerSubmit rand s sid2 code ans).2 =
        [.roomPlayers code (jsValues room.players),
         .gameVoting code (shuffle rand
           (buildVotingOptions (getAllAnswers (submitAnswer s code sid2 ans) code)
             q.correctAnswer))] ∧
      (buildVotingOptions (getAllAnswers (submitAnswer s code sid2 ans) code)
          q.correctAnswer).length = room1.answers.length + 1 ∧
      ((buildVotingOptions (getAllAnswers (submitAnswer s code sid2 ans) code)
          q.correctAnswer).filter (fun o => o.isCorrect)).length = 1 ∧
      (shuffle rand (buildVotingOptions (getAllAnswers (submitAnswer s code sid2 ans)
          code) q.correctAnswer)).Perm
        (buildVotingOptions (getAllAnswers (submitAnswer s code sid2 ans) code)
          q.correctAnswer)) := by
  have hnot : ¬ room.hostId ≠ sid := by simp [hhost]
  constructor
  · refine ⟨?_, ?_, buildVotingOptions_one_correct _ _, shuffle_perm rand _⟩
    · unfold handleHostAction
      rw [hr]
      dsimp only
      rw [if_neg hnot, hq]
    · rw [buildVotingOptions_length, getAllAnswers_length s code room hr]
  · intro sid2 ans room1 hschema hroom1 hcnt hpos
    have hac : getAnswerCount (submitAnswer s code sid2 ans) code =
        room1.answers.length := by
      unfold getAnswerCount
      rw [hroom1]
    have hpc : getPlayerCount (submitAnswer s code sid2 ans) code =
        room1.players.length := by
      unfold getPlayerCount
      rw [hroom1]
    have hcond : getAnswerCount (submitAnswer s code sid2 ans) code =
        getPlayerCount (submitAnswer s code sid2 ans) code ∧
        0 < getPlayerCount (submitAnswer s code sid2 ans) code := by
      rw [hac, hpc]
      exact ⟨hcnt, hpos⟩
    refine ⟨?_, ?_, buildVotingOptions_one_correct _ _, shuffle_perm rand _⟩
    · unfold handleAnswerSubmit
      rw [hschema]
      dsimp only
      rw [hr]
      dsimp only
      have hnst : ¬ room.state ≠ GameState.question := by simp [hst]
      rw [if_neg hnst]
      rw [if_pos hcond, hq]
      rfl
    · rw [buildVotingOptions_length,
        getAllAnswers_length (submitAnswer s code sid2 ans) code room1 hroom1]

/-- Witness for the amended C1 at the duplicate-answer room: the host shows
voting; separately, submitting the missing second answer in the one-answer
variant triggers the auto-advance path. -/
theorem C1_voting_options_witness :
    getRoom [(1234, roomC1)] 1234 = some roomC1 ∧
    roomC1.state = .question ∧
    roomC1.hostId = "host" ∧
    roomC1.questions[roomC1.currentQuestionIndex]? = some qW ∧
    ((handleHostAction (fun _ => 0) [(1234, roomC1)] "host" 1234 .show_voting).2 =
        [.gameVoting 1234 (shuffle (fun _ => 0)
          (buildVotingOptions (getAllAnswers [(1234, roomC1)] 1234)
            qW.correctAnswer))] ∧
      (buildVotingOptions (getAllAnswers [(1234, roomC1)] 1234)
        qW.correctAnswer).length = roomC1.answers.length + 1 ∧
      ((buildVotingOptions (getAllAnswers [(1234, roomC1)] 1234)
        qW.correctAnswer).filter (fun o => o.isCorrect)).length = 1 ∧
      (shuffle (fun _ => 0) (buildVotingOptions (getAllAnswers [(1234, roomC1)] 1234)
        qW.correctAnswer)).Perm
        (buildVotingOptions (getAllAnswers [(1234, roomC1)] 1234)
          qW.correctAnswer)) :=
  ⟨rfl, rfl, rfl, rfl,
    (C1_voting_options (fun _ => 0) [(1234, roomC1)] "host" 1234 roomC1 qW
      rfl rfl rfl rfl).1⟩

/-! C6: the answers-keys-subset-of-players-keys invariant. -/

theorem getRoom_setRoom (s : MemStorage) (code c2 : Nat) (r : Room) :
    getRoom (setRoom s code r) c2 = if c2 = code then some r else getRoom s c2 := by
  by_cases h : c2 = code
  · subst h
    rw [if_pos rfl]
    exact getRoom_setRoom_self s c2 r
  · rw [if_neg h]
    exact getRoom_setRoom_ne s code c2 r h

theorem mem_keys_of_jsGet_some {κ α : Type} [BEq κ] [LawfulBEq κ]
    (m : List (κ × α)) (k : κ) (v : α) (h : jsGet m k = some v) :
    k ∈ jsKeys m :=
  List.mem_map.mpr ⟨(k, v), jsGet_mem m k v h, rfl⟩

theorem mem_keys_of_truthy (m : List (String × String)) (k : String)
    (h : truthyStr (jsGet m k) = true) : k ∈ jsKeys m := by
  cases hg : jsGet m k with
  | none => rw [hg] at h; simp [truthyStr] at h
  | some v => exact mem_keys_of_jsGet_some m k v hg

theorem mem_jsKeys_jsDelete {κ α : Type} [BEq κ] [LawfulBEq κ]
    (m : List (κ × α)) (k a : κ) :
    a ∈ jsKeys (jsDelete m k) ↔ a ∈ jsKeys m ∧ a ≠ k := by
  simp only [jsKeys, jsDelete, List.mem_map, List.mem_filter, bne_iff_ne, ne_eq]
  constructor
  · rintro ⟨p, ⟨hp, hpk⟩, rfl⟩
    exact ⟨⟨p, hp, rfl⟩, hpk⟩
  · rintro ⟨⟨p, hp, rfl⟩, hak⟩
    exact ⟨p, ⟨hp, hak⟩, rfl⟩

theorem jsGet_jsDelete_self {κ α : Type} [BEq κ] [LawfulBEq κ]
    (m : List (κ × α)) (k : κ) : jsGet (jsDelete m k) k = none := by
  unfold jsGet
  rw [List.find?_eq_none.mpr]
  · rfl
  · intro p hp
    have := (List.mem_filter.mp hp).2
    simpa [bne_iff_ne] using this

theorem jsGet_jsDelete_ne {κ α : Type} [BEq κ] [LawfulBEq κ]
    (m : List (κ × α)) (k k2 : κ) (h : k2 ≠ k) :
    jsGet (jsDelete m k) k2 = jsGet m k2 := by
  unfold jsGet jsDelete
  induction m with
  | nil => rfl
  | cons p m ih =>
    by_cases hpk : p.1 == k
    · have hpk2 : (p.1 == k2) = false := by
        simp only [beq_iff_eq] at hpk
        simp only [beq_eq_false_iff_ne, hpk]
        exact fun hh => h hh.symm
      have : (p.1 != k) = false := by simp [bne, hpk]
      simp only [List.filter_cons, this, List.find?_cons, hpk2]
      exact ih
    · have : (p.1 != k) = true := by simp [bne, Bool.not_eq_true]; simpa using hpk
      simp only [List.filter_cons, this, if_true, List.find?_cons]
      by_cases hpk2 : p.1 == k2
      · simp [hpk2]
      · simp only [Bool.not_eq_true] at hpk2
        simp only [hpk2]
        exact ih

/-- The invariant of C6 for a single room. -/
def answersSubsetPlayers (r : Room) : Prop :=
  ∀ sid, sid ∈ jsKeys r.answers → sid ∈ jsKeys r.players

/-- The invariant of C6 for the whole store. -/
def StoreInv (s : MemStorage) : Prop :=
  ∀ code r, getRoom s code = some r → answersSubsetPlayers r

/-- One storage operation of the kinds the claim enumerates: room creation,
join (add player), remove player, submit answer, clear answers / votes, the
`Partial<Room>` phase updates the handlers perform, score updates, and room
deletion. -/
inductive StoreStep : MemStorage → MemStorage → Prop where
  | create (s : MemStorage) (seeds : List Nat) (hostId : String)
      (qs : List Question) (c : Nat) (s2 : MemStorage) :
      createRoom s seeds hostId qs = some (c, s2) → StoreStep s s2
  | addPlayer (s : MemStorage) (code : Nat) (sid name : String) :
      StoreStep s (addPlayerToRoom s code sid name)
  | removePlayer (s : MemStorage) (code : Nat) (sid : String) :
      StoreStep s (removePlayerFromRoom s code sid)
  | submit (s : MemStorage) (code : Nat) (sid answer : String) :
      StoreStep s (submitAnswer s code sid answer)
  | clearAns (s : MemStorage) (code : Nat) :
      StoreStep s (clearAnswers s code)
  | clearV (s : MemStorage) (code : Nat) :
      StoreStep s (clearVotes s code)
  | phase (s : MemStorage) (code : Nat) (u : RoomUpdate) :
      StoreStep s (updateRoom s code u)
  | score (s : MemStorage) (code : Nat) (sid : String) (pts : Int) :
      StoreStep s (updatePlayerScore s code sid pts)
  | deleteR (s : MemStorage) (code : Nat) :
      StoreStep s (deleteRoom s code)

theorem storeStep_preserves_inv (s s2 : MemStorage)
    (hinv : StoreInv s) (hstep : StoreStep s s2) : StoreInv s2 := by
  cases hstep with
  | create seeds hostId qs c s2 hcr =>
    unfold createRoom at hcr
    cases hgen : generateRoomCode s seeds with
    | none => rw [hgen] at hcr; simp at hcr
    | some code =>
      rw [hgen] at hcr
      simp only [Option.some.injEq, Prod.mk.injEq] at hcr
      obtain ⟨rfl, rfl⟩ := hcr
      intro c2 r2 hr2
      rw [getRoom_setRoom] at hr2
      by_cases hc : c2 = code
      · rw [if_pos hc] at hr2
        injection hr2 with hr2
        subst hr2
        intro sid hsid
        simp [jsKeys] at hsid
      · rw [if_neg hc] at hr2
        exact hinv c2 r2 hr2
  | addPlayer code sid name =>
    intro c2 r2 hr2
    unfold addPlayerToRoom at hr2
    cases hg : getRoom s code with
    | none => rw [hg] at hr2; exact hinv c2 r2 hr2
    | some r =>
      rw [hg] at hr2
      rw [getRoom_setRoom] at hr2
      by_cases hc : c2 = code
      · rw [if_pos hc] at hr2
        injection hr2 with hr2
        subst hr2
        intro k hk
        have := hinv code r hg k hk
        exact (mem_jsKeys_jsSet r.players sid k (jsTrim name)).mpr (Or.inl this)
      · rw [if_neg hc] at hr2
        exact hinv c2 r2 hr2
  | removePlayer code sid =>
    intro c2 r2 hr2
    unfold removePlayerFromRoom at hr2
    cases hg : getRoom s code with
    | none => rw [hg] at hr2; exact hinv c2 r2 hr2
    | some r =>
      rw [hg] at hr2
      rw [getRoom_setRoom] at hr2
      by_cases hc : c2 = code
      · rw [if_pos hc] at hr2
        injection hr2 with hr2
        subst hr2
        intro k hk
        obtain ⟨hk1, hk2⟩ := (mem_jsKeys_jsDelete r.answers sid k).mp hk
        exact (mem_jsKeys_jsDelete r.players sid k).mpr ⟨hinv code r hg k hk1, hk2⟩
      · rw [if_neg hc] at hr2
        exact hinv c2 r2 hr2
  | submit code sid answer =>
    intro c2 r2 hr2
    unfold submitAnswer at hr2
    cases hg : getRoom s code with
    | none => rw [hg] at hr2; exact hinv c2 r2 hr2
    | some r =>
      rw [hg] at hr2
      dsimp only at hr2
      by_cases ht : truthyStr (jsGet r.players sid) = true
      · rw [if_pos ht] at hr2
        rw [getRoom_setRoom] at hr2
        by_cases hc : c2 = code
        · rw [if_pos hc] at hr2
          injection hr2 with hr2
          subst hr2
          intro k hk
          rcases (mem_jsKeys_jsSet r.answers sid k (jsTrim answer)).mp hk with hin | rfl
          · exact hinv code r hg k hin
          · exact mem_keys_of_truthy r.players k ht
        · rw [if_neg hc] at hr2
          exact hinv c2 r2 hr2
      · rw [if_neg ht] at hr2
        exact hinv c2 r2 hr2
  | clearAns code =>
    intro c2 r2 hr2
    unfold clearAnswers at hr2
    cases hg : getRoom s code with
    | none => rw [hg] at hr2; exact hinv c2 r2 hr2
    | some r =>
      rw [hg] at hr2
      rw [getRoom_setRoom] at hr2
      by_cases hc : c2 = code
      · rw [if_pos hc] at hr2
        injection hr2 with hr2
        subst hr2
        intro k hk
        simp [jsKeys] at hk
      · rw [if_neg hc] at hr2
        exact hinv c2 r2 hr2
  | clearV code =>
    intro c2 r2 hr2
    unfold clearVotes clearAnswers at hr2
    cases hg : getRoom s code with
    | none => rw [hg] at hr2; exact hinv c2 r2 hr2
    | some r =>
      rw [hg] at hr2
      rw [getRoom_setRoom] at hr2
      by_cases hc : c2 = code
      · rw [if_pos hc] at hr2
        injection hr2 with hr2
        subst hr2
        intro k hk
        simp [jsKeys] at hk
      · rw [if_neg hc] at hr2
        exact hinv c2 r2 hr2
  | phase code u =>
    intro c2 r2 hr2
    unfold updateRoom at hr2
    cases hg : getRoom s code with
    | none => rw [hg] at hr2; exact hinv c2 r2 hr2
    | some r =>
      rw [hg] at hr2
      rw [getRoom_setRoom] at hr2
      by_cases hc : c2 = code
      · rw [if_pos hc] at hr2
        injection hr2 with hr2
        subst hr2
        intro k hk
        exact hinv code r hg k hk
      · rw [if_neg hc] at hr2
        exact hinv c2 r2 hr2
  | score code sid pts =>
    intro c2 r2 hr2
    unfold updatePlayerScore at hr2
    cases hg : getRoom s code with
    | none => rw [hg] at hr2; exact hinv c2 r2 hr2
    | some r =>
      rw [hg] at hr2
      dsimp only at hr2
      by_cases ht : truthyStr (jsGet r.players sid) = true
      · rw [if_pos ht] at hr2
        rw [getRoom_setRoom] at hr2
        by_cases hc : c2 = code
        · rw [if_pos hc] at hr2
          injection hr2 with hr2
          subst hr2
          intro k hk
          exact hinv code r hg k hk
        · rw [if_neg hc] at hr2
          exact hinv c2 r2 hr2
      · rw [if_neg ht] at hr2
        exact hinv c2 r2 hr2
  | deleteR code =>
    intro c2 r2 hr2
    unfold deleteRoom at hr2
    by_cases hc : c2 = code
    · subst hc
      have hnone : getRoom (jsDelete s c2) c2 = none := jsGet_jsDelete_self s c2
      rw [hnone] at hr2
      cases hr2
    · have heq : getRoom (jsDelete s code) c2 = getRoom s c2 :=
        jsGet_jsDelete_ne s code c2 hc
      rw [heq] at hr2
      exact hinv c2 r2 hr2

/-- Reachability of a store from the empty `MemStorage` through the
operations above. -/
def ReachableStore (s : MemStorage) : Prop :=
  Relation.ReflTransGen StoreStep ([] : MemStorage) s

/-- C6: in every reachable store, every room's `answers` keys are a subset of
its `players` keys — the invariant holds after every operation (create, join,
remove player, submit answer, clear answers/votes, phase updates, score
updates, deletion). -/
theorem C6_answers_subset_players (s : MemStorage) (h : ReachableStore s) :
    StoreInv s := by
  induction h with
  | refl =>
    intro code r hr
    simp [getRoom, jsGet] at hr
  | tail hab hstep ih =>
    exact storeStep_preserves_inv _ _ ih hstep

/-- Witness for C6: create a room, join a player, submit an answer, and check
the invariant on the resulting store. -/
theorem C6_answers_subset_players_witness :
    ReachableStore
      (submitAnswer (addPlayerToRoom [(1000, roomW7)] 1000 "p1" "ann")
        1000 "p1" "lyon") ∧
    StoreInv
      (submitAnswer (addPlayerToRoom [(1000, roomW7)] 1000 "p1" "ann")
        1000 "p1" "lyon") := by
  have hchain : ReachableStore
      (submitAnswer (addPlayerToRoom [(1000, roomW7)] 1000 "p1" "ann")
        1000 "p1" "lyon") := by
    refine Relation.ReflTransGen.tail (Relation.ReflTransGen.tail
      (Relation.ReflTransGen.single
        (StoreStep.create [] [0] "host" [qW] 1000 [(1000, roomW7)] rfl))
      (StoreStep.addPlayer [(1000, roomW7)] 1000 "p1" "ann"))
      (StoreStep.submit (addPlayerToRoom [(1000, roomW7)] 1000 "p1" "ann")
        1000 "p1" "lyon")
  exact ⟨hchain, C6_answers_subset_players _ hchain⟩

/-! C2: order-independent auto-advance to voting. -/

theorem truthy_of_mem_keys (m : List (String × String)) (k : String)
    (hk : k ∈ jsKeys m) (hv : ∀ pr ∈ m, pr.2 ≠ "") :
    truthyStr (jsGet m k) = true := by
  obtain ⟨v, hg, hmem⟩ := jsGet_isSome_of_mem_keys m k hk
  rw [hg]
  have : v ≠ "" := hv (k, v) hmem
  simpa [truthyStr] using this

theorem nodup_keys_length_eq {l1 l2 : List String}
    (h1 : l1.Nodup) (h2 : l2.Nodup)
    (hsub : ∀ k, k ∈ l1 → k ∈ l2) (hsup : ∀ k, k ∈ l2 → k ∈ l1) :
    l1.length = l2.length := by
  have hset : l1.toFinset = l2.toFinset := by
    apply Finset.ext
    intro a
    simp only [List.mem_toFinset]
    exact ⟨hsub a, hsup a⟩
  calc l1.length = l1.toFinset.card := (List.toFinset_card_of_nodup h1).symm
    _ = l2.toFinset.card := by rw [hset]
    _ = l2.length := List.toFinset_card_of_nodup h2

theorem nodup_keys_length_ne {l1 l2 : List String}
    (h1 : l1.Nodup) (h2 : l2.Nodup)
    (hsub : ∀ k, k ∈ l1 → k ∈ l2)
    (k0 : String) (hk0 : k0 ∈ l2) (hk0n : k0 ∉ l1) :
    l1.length ≠ l2.length := by
  have hsubF : l1.toFinset ⊆ l2.toFinset := by
    intro a ha
    simp only [List.mem_toFinset] at ha ⊢
    exact hsub a ha
  have hne : l1.toFinset ≠ l2.toFinset := by
    intro heq
    apply hk0n
    have : k0 ∈ l1.toFinset := heq ▸ List.mem_toFinset.mpr hk0
    exact List.mem_toFinset.mp this
  have hlt : l1.toFinset.card < l2.toFinset.card :=
    Finset.card_lt_card (lt_of_le_of_ne hsubF hne)
  rw [List.toFinset_card_of_nodup h1, List.toFinset_card_of_nodup h2] at hlt
  omega

/-- Calling `submitAnswer` on a room with a truthy player writes the trimmed answer. -/
theorem submitAnswer_eq (s : MemStorage) (code : Nat) (sid ans : String)
    (r : Room) (hr : getRoom s code = some r)
    (ht : truthyStr (jsGet r.players sid) = true) :
    submitAnswer s code sid ans =
      setRoom s code { r with answers := jsSet r.answers sid (jsTrim ans) } := by
  unfold submitAnswer
  rw [hr]
  dsimp only
  rw [if_pos ht]

/-- A submit while the room is not in phase `question` changes nothing. -/
theorem handleAnswerSubmit_wrong_state (rand : Nat → Nat) (s : MemStorage)
    (sid : String) (code : Nat) (ans : String) (r : Room)
    (hschema : submitAnswerSchemaOK ans = true)
    (hr : getRoom s code = some r)
    (hst : r.state ≠ .question) :
    (handleAnswerSubmit rand s sid code ans).1 = s := by
  unfold handleAnswerSubmit
  rw [hschema]
  dsimp only
  rw [hr]
  dsimp only
  rw [if_pos hst]
  rfl

/-- A submit in phase `question` that does not reach the player count just
stores the answer. -/
theorem handleAnswerSubmit_no_trigger (rand : Nat → Nat) (s : MemStorage)
    (sid : String) (code : Nat) (ans : String) (r : Room)
    (hschema : submitAnswerSchemaOK ans = true)
    (hr : getRoom s code = some r)
    (hst : r.state = .question)
    (ht : truthyStr (jsGet r.players sid) = true)
    (hcnt : (jsSet r.answers sid (jsTrim ans)).length ≠ r.players.length) :
    (handleAnswerSubmit rand s sid code ans).1 =
      setRoom s code { r with answers := jsSet r.answers sid (jsTrim ans) } := by
  have hsub := submitAnswer_eq s code sid ans r hr ht
  unfold handleAnswerSubmit
  rw [hschema]
  dsimp only
  rw [hr]
  dsimp only
  have hnst : ¬ r.state ≠ GameState.question := by simp [hst]
  rw [if_neg hnst]
  have hac : getAnswerCount (submitAnswer s code sid ans) code =
      (jsSet r.answers sid (jsTrim ans)).length := by
    unfold getAnswerCount
    rw [hsub, getRoom_setRoom_self]
  have hpc : getPlayerCount (submitAnswer s code sid ans) code =
      r.players.length := by
    unfold getPlayerCount
    rw [hsub, getRoom_setRoom_self]
  have hcond : ¬ (getAnswerCount (submitAnswer s code sid ans) code =
      getPlayerCount (submitAnswer s code sid ans) code ∧
      0 < getPlayerCount (submitAnswer s code sid ans) code) := by
    rw [hac, hpc]
    intro hand
    exact hcnt hand.1
  rw [if_neg hcond]
  rw [hsub]
  rfl

/-- A submit in phase `question` that brings the answer count up to a
positive player count performs the voting transition. -/
theorem handleAnswerSubmit_trigger (rand : Nat → Nat) (s : MemStorage)
    (sid : String) (code : Nat) (ans : String) (r : Room) (q : Question)
    (hschema : submitAnswerSchemaOK ans = true)
    (hr : getRoom s code = some r)
    (hst : r.state = .question)
    (ht : truthyStr (jsGet r.players sid) = true)
    (hq : r.questions[r.currentQuestionIndex]? = some q)
    (hcnt : (jsSet r.answers sid (jsTrim ans)).length = r.players.length)
    (hpos : 0 < r.players.length) :
    (handleAnswerSubmit rand s sid code ans).1 =
      clearAnswers (updateRoom
        (setRoom s code { r with answers := jsSet r.answers sid (jsTrim ans) })
        code { state := some .voting, currentQuestionIndex := none }) code := by
  have hsub := submitAnswer_eq s code sid ans r hr ht
  unfold handleAnswerSubmit
  rw [hschema]
  dsimp only
  rw [hr]
  dsimp only
  have hnst : ¬ r.state ≠ GameState.question := by simp [hst]
  rw [if_neg hnst]
  have hac : getAnswerCount (submitAnswer s code sid ans) code =
      (jsSet r.answers sid (jsTrim ans)).length := by
    unfold getAnswerCount
    rw [hsub, getRoom_setRoom_self]
  have hpc : getPlayerCount (submitAnswer s code sid ans) code =
      r.players.length := by
    unfold getPlayerCount
    rw [hsub, getRoom_setRoom_self]
  have hcond : getAnswerCount (submitAnswer s code sid ans) code =
      getPlayerCount (submitAnswer s code sid ans) code ∧
      0 < getPlayerCount (submitAnswer s code sid ans) code := by
    rw [hac, hpc]
    exact ⟨hcnt, hpos⟩
  rw [if_pos hcond, hq]
  dsimp only
  rw [hsub]
  rfl

/-- Mid-run invariant for a round started in phase `question` with empty
answers in the room `room0`: after the submitters `sub` have been processed,
either the roster is not yet covered and the room is still in `question` with
the answers keyed exactly by the roster members seen so far, or the roster is
covered and the room is in `voting`. -/
def C2Mid (code : Nat) (room0 : Room) (s : MemStorage) (sub : List String) : Prop :=
  ∃ r, getRoom s code = some r ∧
    r.players = room0.players ∧
    r.questions = room0.questions ∧
    r.currentQuestionIndex = room0.currentQuestionIndex ∧
    (¬ jsKeys room0.players ⊆ sub →
      r.state = .question ∧
      (jsKeys r.answers).Nodup ∧
      (∀ k, k ∈ jsKeys r.answers ↔ k ∈ sub ∧ k ∈ jsKeys room0.players)) ∧
    (jsKeys room0.players ⊆ sub → r.state = .voting)

theorem C2Mid_step (rand : Nat → Nat) (code : Nat) (room0 : Room) (q : Question)
    (hq0 : room0.questions[room0.currentQuestionIndex]? = some q)
    (hnodup : (jsKeys room0.players).Nodup)
    (hnames : ∀ pr ∈ room0.players, pr.2 ≠ "")
    (hne : room0.players ≠ [])
    (s : MemStorage) (sub : List String) (sid ans : String)
    (hsid : sid ∈ jsKeys room0.players)
    (hschema : submitAnswerSchemaOK ans = true)
    (hmid : C2Mid code room0 s sub) :
    C2Mid code room0 ((handleAnswerSubmit rand s sid code ans).1) (sub ++ [sid]) := by
  obtain ⟨r, hr, hP, hQ, hI, hQuest, hVote⟩ := hmid
  by_cases hcov : jsKeys room0.players ⊆ sub
  · have hstv : r.state = .voting := hVote hcov
    have hcov2 : jsKeys room0.players ⊆ sub ++ [sid] :=
      fun k hk => List.mem_append_left _ (hcov hk)
    have hstep := handleAnswerSubmit_wrong_state rand s sid code ans r hschema hr
      (by simp [hstv])
    rw [hstep]
    exact ⟨r, hr, hP, hQ, hI, fun hnc => absurd hcov2 hnc, fun _ => hstv⟩
  · obtain ⟨hst, hnodupA, hkeys⟩ := hQuest hcov
    have ht : truthyStr (jsGet r.players sid) = true := by
      rw [hP]
      exact truthy_of_mem_keys room0.players sid hsid hnames
    have hkeys1 : ∀ k, k ∈ jsKeys (jsSet r.answers sid (jsTrim ans)) ↔
        (k ∈ sub ∨ k = sid) ∧ k ∈ jsKeys room0.players := by
      intro k
      rw [mem_jsKeys_jsSet]
      constructor
      · rintro (hin | rfl)
        · obtain ⟨h1, h2⟩ := (hkeys k).mp hin
          exact ⟨Or.inl h1, h2⟩
        · exact ⟨Or.inr rfl, hsid⟩
      · rintro ⟨(h1 | rfl), h2⟩
        · exact Or.inl ((hkeys k).mpr ⟨h1, h2⟩)
        · exact Or.inr rfl
    have hnodupA2 : (jsKeys (jsSet r.answers sid (jsTrim ans))).Nodup :=
      nodup_jsKeys_jsSet _ _ _ hnodupA
    have hkeylen : ∀ (m : List (String × String)), (jsKeys m).length = m.length :=
      fun m => List.length_map _ _
    have hplen : 0 < r.players.length := by
      rw [hP]
      cases hpp : room0.players with
      | nil => exact absurd hpp hne
      | cons a t => simp
    have hq2 : r.questions[r.currentQuestionIndex]? = some q := by
      rw [hQ, hI]
      exact hq0
    by_cases hcov2 : jsKeys room0.players ⊆ sub ++ [sid]
    · have hlen : (jsSet r.answers sid (jsTrim ans)).length = r.players.length := by
        have h1 : (jsKeys (jsSet r.answers sid (jsTrim ans))).length =
            (jsKeys room0.players).length := by
          apply nodup_keys_length_eq hnodupA2 hnodup
          · intro k hk
            exact ((hkeys1 k).mp hk).2
          · intro k hk
            rcases List.mem_append.mp (hcov2 hk) with h | h
            · exact (hkeys1 k).mpr ⟨Or.inl h, hk⟩
            · exact (hkeys1 k).mpr ⟨Or.inr (by simpa using h), hk⟩
        rw [hkeylen, hkeylen] at h1
        rw [h1, hP]
      have hstep := handleAnswerSubmit_trigger rand s sid code ans r q hschema hr
        hst ht hq2 hlen hplen
      rw [hstep]
      have h1 := getRoom_setRoom_self s code
        { r with answers := jsSet r.answers sid (jsTrim ans) }
      have h2 := getRoom_updateRoom_self _ code
        { r with answers := jsSet r.answers sid (jsTrim ans) }
        { state := some .voting, currentQuestionIndex := none } h1
      have h3 := getRoom_clearAnswers_self _ code _ h2
      refine ⟨_, h3, ?_, ?_, ?_, fun hnc => absurd hcov2 hnc, fun _ => ?_⟩
      · simp [applyUpdate, hP]
      · simp [applyUpdate, hQ]
      · simp [applyUpdate, hI]
      · simp [applyUpdate]
    · have hlen : (jsSet r.answers sid (jsTrim ans)).length ≠ r.players.length := by
        have ⟨k0, hk0mem, hk0not⟩ :
            ∃ k0, k0 ∈ jsKeys room0.players ∧ k0 ∉ sub ++ [sid] := by
          by_contra hno
          push_neg at hno
          exact hcov2 fun k hk => hno k hk
        have hk0notset : k0 ∉ jsKeys (jsSet r.answers sid (jsTrim ans)) := by
          intro hk
          obtain ⟨hor, _⟩ := (hkeys1 k0).mp hk
          apply hk0not
          rcases hor with h | rfl
          · exact List.mem_append_left _ h
          · exact List.mem_append_right _ (by simp)
        have h1 : (jsKeys (jsSet r.answers sid (jsTrim ans))).length ≠
            (jsKeys room0.players).length :=
          nodup_keys_length_ne hnodupA2 hnodup
            (fun k hk => ((hkeys1 k).mp hk).2) k0 hk0mem hk0notset
        rw [hkeylen, hkeylen] at h1
        rw [hP]
        exact h1
      have hstep := handleAnswerSubmit_no_trigger rand s sid code ans r hschema hr
        hst ht hlen
      rw [hstep]
      refine ⟨_, getRoom_setRoom_self s code _, hP, hQ, hI, fun _ => ⟨hst, hnodupA2, ?_⟩,
        fun hcv => absurd hcv hcov2⟩
      intro k
      rw [hkeys1 k]
      constructor
      · rintro ⟨(h1 | rfl), h2⟩
        · exact ⟨List.mem_append_left _ h1, h2⟩
        · exact ⟨List.mem_append_right _ (by simp), h2⟩
      · rintro ⟨h1, h2⟩
        rcases List.mem_append.mp h1 with h | h
        · exact ⟨Or.inl h, h2⟩
        · exact ⟨Or.inr (by simpa using h), h2⟩

theorem C2Mid_run (rand : Nat → Nat) (code : Nat) (room0 : Room) (q : Question)
    (hq0 : room0.questions[room0.currentQuestionIndex]? = some q)
    (hnodup : (jsKeys room0.players).Nodup)
    (hnames : ∀ pr ∈ room0.players, pr.2 ≠ "")
    (hne : room0.players ≠ [])
    (evs : List (String × String)) :
    ∀ (s : MemStorage) (sub : List String),
      (∀ e ∈ evs, e.1 ∈ jsKeys room0.players ∧ submitAnswerSchemaOK e.2 = true) →
      C2Mid code room0 s sub →
      C2Mid code room0 (processSubmits rand code s evs)
        (sub ++ evs.map (fun e => e.1)) := by
  induction evs with
  | nil =>
    intro s sub _ hmid
    simpa [processSubmits] using hmid
  | cons e rest ih =>
    intro s sub hevs hmid
    obtain ⟨sid, ans⟩ := e
    have hhead := hevs (sid, ans) (List.mem_cons_self _ _)
    have h1 := C2Mid_step rand code room0 q hq0 hnodup hnames hne s sub sid ans
      hhead.1 hhead.2 hmid
    have h2 := ih _ (sub ++ [sid])
      (fun e2 he2 => hevs e2 (List.mem_cons_of_mem _ he2)) h1
    simpa [processSubmits, List.append_assoc] using h2

/-- C2 amended: starting from a question-phase room with empty answers, a
nonempty roster of players whose stored display names are all nonempty
(truthy), and a valid current question, processing any sequence of
submit-answer calls from roster members leaves the room in phase `voting`
after exactly those prefixes whose submitters cover the whole roster, and in
phase `question` after all others — so the transition happens exactly once,
at the moment the distinct-submitter count reaches the roster size,
regardless of the order of the calls. -/
theorem C2_auto_advance (rand : Nat → Nat) (s : MemStorage) (code : Nat)
    (room : Room) (q : Question) (evs : List (String × String))
    (hr : getRoom s code = some room)
    (hst : room.state = .question)
    (hans : room.answers = [])
    (hne : room.players ≠ [])
    (hnodup : (jsKeys room.players).Nodup)
    (hnames : ∀ pr ∈ room.players, pr.2 ≠ "")
    (hq : room.questions[room.currentQuestionIndex]? = some q)
    (hevs : ∀ e ∈ evs, e.1 ∈ jsKeys room.players ∧ submitAnswerSchemaOK e.2 = true) :
    ∀ p suf, evs = p ++ suf →
      ((getRoom (processSubmits rand code s p) code).map (fun r2 => r2.state) =
          some .voting ↔ jsKeys room.players ⊆ p.map (fun e => e.1)) ∧
      ((getRoom (processSubmits rand code s p) code).map (fun r2 => r2.state) =
          some .question ↔ ¬ jsKeys room.players ⊆ p.map (fun e => e.1)) := by
  intro p suf hsplit
  have hmid0 : C2Mid code room s [] := by
    refine ⟨room, hr, rfl, rfl, rfl, fun _ => ⟨hst, ?_, ?_⟩, fun hcv => ?_⟩
    · simp [hans, jsKeys]
    · intro k
      simp [hans, jsKeys]
    · exfalso
      cases hpp : room.players with
      | nil => exact hne hpp
      | cons a t =>
        have : a.1 ∈ jsKeys room.players := by
          rw [hpp]
          simp [jsKeys]
        exact absurd (hcv this) (by simp)
  have hconc := C2Mid_run rand code room q hq hnodup hnames hne p s []
    (fun e he => hevs e (hsplit ▸ List.mem_append_left _ he)) hmid0
  simp only [List.nil_append] at hconc
  obtain ⟨r2, hr2, _, _, _, hQuest2, hVote2⟩ := hconc
  rw [hr2]
  simp only [Option.map_some', Option.some.injEq]
  constructor
  · constructor
    · intro hveq
      by_contra hnc
      obtain ⟨hst2, _, _⟩ := hQuest2 hnc
      rw [hst2] at hveq
      simp at hveq
    · intro hcov
      exact hVote2 hcov
  · constructor
    · intro hqeq hcov
      rw [hVote2 hcov] at hqeq
      simp at hqeq
    · intro hnc
      exact (hQuest2 hnc).1

/-- A concrete two-player question-phase room for the C2 witness. -/
def roomC2 : Room :=
  { code := 1234, hostId := "host", questions := [qW], currentQuestionIndex := 0,
    players := [("p1", "ann"), ("p2", "ben")], answers := [], scores := [],
    state := .question }

/-- Witness for the amended C2: two players submit in order; the room is in
`question` after the first submission and in `voting` from the second on. -/
theorem C2_auto_advance_witness :
    getRoom [(1234, roomC2)] 1234 = some roomC2 ∧
    roomC2.state = .question ∧
    roomC2.answers = [] ∧
    roomC2.players ≠ [] ∧
    (jsKeys roomC2.players).Nodup ∧
    (∀ pr ∈ roomC2.players, pr.2 ≠ "") ∧
    roomC2.questions[roomC2.currentQuestionIndex]? = some qW ∧
    (∀ e ∈ ([("p1", "lyon"), ("p2", "bern")] : List (String × String)),
      e.1 ∈ jsKeys roomC2.players ∧ submitAnswerSchemaOK e.2 = true) ∧
    (∀ p suf, ([("p1", "lyon"), ("p2", "bern")] : List (String × String)) = p ++ suf →
      ((getRoom (processSubmits (fun _ => 0) 1234 [(1234, roomC2)] p) 1234).map
          (fun r2 => r2.state) = some .voting ↔
        jsKeys roomC2.players ⊆ p.map (fun e => e.1)) ∧
      ((getRoom (processSubmits (fun _ => 0) 1234 [(1234, roomC2)] p) 1234).map
          (fun r2 => r2.state) = some .question ↔
        ¬ jsKeys roomC2.players ⊆ p.map (fun e => e.1))) :=
  ⟨rfl, rfl, rfl, by decide, by decide, by decide, rfl, by decide,
    C2_auto_advance (fun _ => 0) [(1234, roomC2)] 1234 roomC2 qW
      [("p1", "lyon"), ("p2", "bern")] rfl rfl rfl (by decide) (by decide)
      (by decide) rfl (by decide)⟩

/-- The freshly created room of the C2 counterexample run. -/
def roomC2e : Room :=
  { code := 1000, hostId := "host1", questions := [qW], currentQuestionIndex := 0,
    players := [], answers := [], scores := [], state := .waiting }

/-- Counterexample to C2 as stated: a player may join with the name `" "`
(accepted by the join schema, trimmed to `""`), making its roster entry
falsy. Submissions from that player are silently dropped by `submitAnswer`,
so even after the full non-host roster (here the single player `p1`) has
submitted — repeatedly — the room never transitions to `voting`. The state
is reached from an empty store through the real handlers. -/
theorem C2_empty_name_cex :
    createRoom [] [0] "host1" [qW] = some (1000, [(1000, roomC2e)]) ∧
    ((getRoom ((handleHostAction (fun _ => 0)
        (addPlayerToRoom [(1000, roomC2e)] 1000 "p1" " ") "host1" 1000
        .start).1) 1000).map (fun r => (r.state, r.players, r.answers)) =
      some (.question, [("p1", "")], [])) ∧
    ((getRoom (processSubmits (fun _ => 0) 1000
        ((handleHostAction (fun _ => 0)
          (addPlayerToRoom [(1000, roomC2e)] 1000 "p1" " ") "host1" 1000
          .start).1) [("p1", "hello")]) 1000).map
        (fun r => (r.state, r.answers)) = some (.question, [])) ∧
    ((getRoom (processSubmits (fun _ => 0) 1000
        ((handleHostAction (fun _ => 0)
          (addPlayerToRoom [(1000, roomC2e)] 1000 "p1" " ") "host1" 1000
          .start).1) [("p1", "hello"), ("p1", "hi")]) 1000).map
        (fun r => r.state) = some .question) := by
  decide

end PartyQs
